import Mathlib

/-!
Verification of the invitation/membership consistency core and the
idempotent payment pipeline of the apartment-management backend
(`neda-arcaptcha-internship-2025`).

The development shallowly embeds, from the Go source:

* the Redis store used for invitations and idempotency records
  (`Store`, modelling go-redis `SET`/`EXISTS`/`DEL` with expiry);
* the invitation repository (`invitationLinkRepository`:
  `CreateInvitation`, `ValidateAndConsumeInvitation`, `redisKey`);
* the apartment service (`JoinApartment`, `InviteUserToApartment`);
* the idempotency gate (`payment.paymentImpl.PayBills`, `billPaymentKey`);
* the bill service (`PayBills`, `PayBatchBills`, `DivideAllBills`) and the
  payment repository operations they use.

Stateful Go code becomes explicit state passing: each operation takes the
current store/database value and returns the result together with the new
state.  Wall-clock time is an explicit `now : Nat` parameter.  Go `error`
values are modelled as `Option String`/`Except String` carrying the exact
error message the source produces.  DECIMAL amounts (carried as strings in
Go and parsed with `strconv.ParseFloat`) are modelled as exact rationals.
-/

/-- One Redis entry: a key, the stored value, and an optional absolute
expiry instant (`none` means the key never expires, which is what go-redis
`Set(ctx, key, value, 0)` requests). -/
structure Entry where
  key : String
  value : String
  expiresAt : Option Nat
deriving Repr, DecidableEq

/-- The Redis store: a list of entries, at most one live entry per key is
maintained by `Store.set`. -/
abbrev Store := List Entry

/-- Redis `EXISTS` at time `now`: a key is live when an entry for it exists
and that entry either never expires or expires strictly later than `now`. -/
def Store.live (st : Store) (now : Nat) (k : String) : Bool :=
  st.any fun e =>
    e.key == k &&
      (match e.expiresAt with
       | none => true
       | some t => decide (now < t))

/-- Redis `SET key value expiration`: replaces any previous entry for the
key. -/
def Store.set (st : Store) (k v : String) (exp : Option Nat) : Store :=
  ⟨k, v, exp⟩ :: st.filter fun e => !(e.key == k)

/-- Redis `DEL key` returning the store and the deleted-key count: `1` when
a live key was removed, `0` when the key was absent or already expired. -/
def Store.del (st : Store) (now : Nat) (k : String) : Store × Nat :=
  if st.live now k then (st.filter fun e => !(e.key == k), 1) else (st, 0)

/-!
## Capability codec

Modelled from the spec: the Capability Codec of §4.1.  In the source the
codec is the external `go-hashids` library (`hashID.Encode` /
`hashID.DecodeWithError`, constructed with the repository salt and
`MinLength = 8`), whose implementation is not among this repository's
files.  Following the spec's words, it is modelled as a keyed (salted),
deterministic, reversible encoding of integer tuples into alphanumeric
strings of at least `minLength` characters; decoding a string that does not
consist of well-formed encoded integers fails.  Concretely each number is
written in (salt-shifted) decimal digits, numbers are separated by an
uppercase separator character, and the code is left-padded with a
salt-derived lowercase letter up to the minimum length.
-/

/-- The hashids handle: the salt and the enforced minimum code length. -/
structure HashID where
  salt : String
  minLength : Nat
deriving Repr, DecidableEq

/-- Salt-derived digit obfuscation shift. -/
def HashID.shift (h : HashID) : Nat := h.salt.length % 10

/-- Salt-derived padding character, always a lowercase letter. -/
def HashID.padChar (h : HashID) : Char := Char.ofNat (97 + h.salt.length % 26)

/-- Separator between encoded numbers: an uppercase letter, so it is
neither a digit character nor a padding character. -/
def sepChar : Char := 'X'

/-- Encodes one (salt-shifted) digit as a character in `'0'..'9'`. -/
def encDigit (s d : Nat) : Char := Char.ofNat (48 + (d + s) % 10)

/-- Decodes one character back to a digit, undoing the salt shift. -/
def decDigit (s : Nat) (c : Char) : Option Nat :=
  if 48 ≤ c.toNat ∧ c.toNat ≤ 57 then
    some ((c.toNat - 48 + (10 - s % 10)) % 10)
  else none

/-- Base-10 digits of `n`, least significant first; any `fuel ≥ n`
computes all digits. -/
def toRevDigits : Nat → Nat → List Nat
  | 0, _ => []
  | fuel + 1, n => if n = 0 then [] else n % 10 :: toRevDigits fuel (n / 10)

/-- Encodes a number as a nonempty group of digit characters. -/
def encNat (s n : Nat) : List Char :=
  if n = 0 then [encDigit s 0] else (toRevDigits n n).map (encDigit s)

/-- Parses a group of digit characters back to a number. -/
def parseRev (s : Nat) : List Char → Option Nat
  | [] => some 0
  | c :: cs =>
    match decDigit s c, parseRev s cs with
    | some d, some m => some (d + 10 * m)
    | _, _ => none

/-- A number group must be nonempty and all digits. -/
def parseNum (s : Nat) : List Char → Option Nat
  | [] => none
  | c :: cs => parseRev s (c :: cs)

/-- Splits a character list on the separator character. -/
def splitSep : List Char → List (List Char)
  | [] => [[]]
  | c :: cs =>
    if c = sepChar then [] :: splitSep cs
    else
      match splitSep cs with
      | [] => [[c]]
      | p :: ps => (c :: p) :: ps

/-- Parses every separator-separated group, failing if any group fails. -/
def parseParts (s : Nat) : List (List Char) → Option (List Nat)
  | [] => some []
  | p :: ps =>
    match parseNum s p, parseParts s ps with
    | some n, some ns => some (n :: ns)
    | _, _ => none

/-- The unpadded body of a code: the three digit groups joined by the
separator. -/
def encodeCore (h : HashID) (a b c : Nat) : List Char :=
  encNat h.shift a ++ (sepChar :: (encNat h.shift b ++ (sepChar :: encNat h.shift c)))

/-- `Encode` for the three-id tuple the invitation repository uses:
deterministic given the salt, output at least `minLength` characters. -/
def HashID.encode (h : HashID) (a b c : Nat) : String :=
  ⟨List.replicate (h.minLength - (encodeCore h a b c).length) h.padChar ++ encodeCore h a b c⟩

/-- `DecodeWithError`: the list of decoded ids, or `none` for a tampered,
malformed, foreign or empty string. -/
def HashID.decode (h : HashID) (code : String) : Option (List Nat) :=
  parseParts h.shift (splitSep (code.data.dropWhile fun c => c == h.padChar))

/-- The decoded triple, when the code decodes to exactly 3 integers
(mirrors the repository's `err != nil || len(ids) != 3` check). -/
def decodeTriple (h : HashID) (code : String) : Option (Nat × Nat × Nat) :=
  match h.decode code with
  | some [a, b, c] => some (a, b, c)
  | _ => none

/-! ### Codec round-trip lemmas -/

theorem toNat_encDigit (s d : Nat) : (encDigit s d).toNat = 48 + (d + s) % 10 := by
  have h : (d + s) % 10 < 10 := Nat.mod_lt _ (by norm_num)
  unfold encDigit
  set v := (d + s) % 10 with hv
  interval_cases v <;> rfl

theorem decDigit_encDigit (s d : Nat) (hd : d < 10) :
    decDigit s (encDigit s d) = some d := by
  have h2 : (d + s) % 10 < 10 := Nat.mod_lt _ (by norm_num)
  unfold decDigit
  rw [toNat_encDigit]
  rw [if_pos (by omega)]
  congr 1
  omega

theorem parseRev_toRevDigits (s : Nat) :
    ∀ fuel n, n ≤ fuel → parseRev s ((toRevDigits fuel n).map (encDigit s)) = some n := by
  intro fuel
  induction fuel with
  | zero =>
    intro n hn
    interval_cases n
    rfl
  | succ fuel ih =>
    intro n hn
    by_cases h0 : n = 0
    · subst h0
      simp [toRevDigits, parseRev]
    · have hd : n % 10 < 10 := Nat.mod_lt _ (by norm_num)
      have hrec : n / 10 ≤ fuel := by
        have := Nat.div_lt_self (Nat.pos_of_ne_zero h0) (by norm_num : 1 < 10)
        omega
      simp only [toRevDigits, if_neg h0, List.map_cons, parseRev,
        decDigit_encDigit s _ hd, ih _ hrec]
      congr 1
      omega

theorem parseNum_encNat (s n : Nat) : parseNum s (encNat s n) = some n := by
  by_cases h0 : n = 0
  · subst h0
    show parseNum s [encDigit s 0] = some 0
    simp [parseNum, parseRev, decDigit_encDigit s 0 (by norm_num)]
  · obtain ⟨m, rfl⟩ := Nat.exists_eq_succ_of_ne_zero h0
    show parseNum s (encNat s (m + 1)) = some (m + 1)
    have hcons : toRevDigits (m + 1) (m + 1)
        = (m + 1) % 10 :: toRevDigits m ((m + 1) / 10) := by
      simp [toRevDigits]
    have hmain := parseRev_toRevDigits s (m + 1) (m + 1) le_rfl
    unfold encNat
    rw [if_neg h0, hcons]
    rw [hcons] at hmain
    simpa [parseNum] using hmain

theorem mem_encNat_range (s n : Nat) :
    ∀ c ∈ encNat s n, 48 ≤ c.toNat ∧ c.toNat ≤ 57 := by
  have hdig : ∀ d, 48 ≤ (encDigit s d).toNat ∧ (encDigit s d).toNat ≤ 57 := by
    intro d
    rw [toNat_encDigit]
    have : (d + s) % 10 < 10 := Nat.mod_lt _ (by norm_num)
    omega
  intro c hc
  unfold encNat at hc
  by_cases h0 : n = 0
  · rw [if_pos h0] at hc
    simp only [List.mem_singleton] at hc
    exact hc ▸ hdig 0
  · rw [if_neg h0] at hc
    obtain ⟨d, _, rfl⟩ := List.mem_map.mp hc
    exact hdig d

theorem encNat_ne_nil (s n : Nat) : encNat s n ≠ [] := by
  unfold encNat
  by_cases h0 : n = 0
  · simp [h0]
  · obtain ⟨m, rfl⟩ := Nat.exists_eq_succ_of_ne_zero h0
    simp [toRevDigits]

theorem mem_encNat_ne_sep (s n : Nat) : ∀ c ∈ encNat s n, c ≠ sepChar := by
  intro c hc hEq
  have := mem_encNat_range s n c hc
  rw [hEq] at this
  exact absurd this (by decide)

theorem toNat_padChar (h : HashID) : h.padChar.toNat = 97 + h.salt.length % 26 := by
  unfold HashID.padChar
  set v := h.salt.length % 26 with hv
  have : v < 26 := Nat.mod_lt _ (by norm_num)
  interval_cases v <;> rfl

theorem mem_encNat_ne_pad (h : HashID) (s n : Nat) :
    ∀ c ∈ encNat s n, (c == h.padChar) = false := by
  intro c hc
  have h1 := mem_encNat_range s n c hc
  have h2 := toNat_padChar h
  rw [beq_eq_false_iff_ne]
  intro hEq
  rw [hEq] at h1
  omega

theorem splitSep_no_sep : ∀ xs : List Char, (∀ c ∈ xs, c ≠ sepChar) →
    splitSep xs = [xs] := by
  intro xs
  induction xs with
  | nil => intro; rfl
  | cons c cs ih =>
    intro hno
    have hc : c ≠ sepChar := hno c (by simp)
    have hrest := ih fun x hx => hno x (by simp [hx])
    simp only [splitSep, if_neg hc, hrest]

theorem splitSep_append (xs ys : List Char) (hno : ∀ c ∈ xs, c ≠ sepChar) :
    splitSep (xs ++ sepChar :: ys) = xs :: splitSep ys := by
  induction xs with
  | nil => simp [splitSep]
  | cons c cs ih =>
    have hc : c ≠ sepChar := hno c (by simp)
    have hrest := ih fun x hx => hno x (by simp [hx])
    simp only [List.cons_append, splitSep, if_neg hc, List.append_eq, hrest]

theorem dropWhile_replicate_append (p : Char → Bool) (k : Nat) (c : Char)
    (l : List Char) (hc : p c = true) :
    (List.replicate k c ++ l).dropWhile p = l.dropWhile p := by
  induction k with
  | zero => rfl
  | succ k ih => simp [List.replicate_succ, List.dropWhile_cons, hc, ih]

/-- Round trip of the codec: decoding an encoded triple recovers it. -/
theorem hashid_decode_encode (h : HashID) (a b c : Nat) :
    h.decode (h.encode a b c) = some [a, b, c] := by
  unfold HashID.encode HashID.decode
  dsimp only
  rw [dropWhile_replicate_append _ _ _ _ (by simp)]
  have hdw : ((encodeCore h a b c).dropWhile fun c => c == h.padChar)
      = encodeCore h a b c := by
    obtain ⟨c0, rest, hsplit⟩ := List.exists_cons_of_ne_nil (encNat_ne_nil h.shift a)
    have hc0 : (c0 == h.padChar) = false := by
      apply mem_encNat_ne_pad h h.shift a
      rw [hsplit]; simp
    unfold encodeCore
    rw [hsplit]
    simp [List.dropWhile_cons, hc0]
  rw [hdw]
  unfold encodeCore
  rw [splitSep_append _ _ (mem_encNat_ne_sep h.shift a)]
  rw [splitSep_append _ _ (mem_encNat_ne_sep h.shift b)]
  rw [splitSep_no_sep _ (mem_encNat_ne_sep h.shift c)]
  simp [parseParts, parseNum_encNat]

/-- The produced code respects the configured minimum length. -/
theorem encode_length (h : HashID) (a b c : Nat) :
    h.minLength ≤ (h.encode a b c).length := by
  unfold HashID.encode
  show h.minLength ≤ (String.mk _).length
  simp only [String.length, List.length_append, List.length_replicate]
  omega

/-!
## Invitation repository

Embeds `repositories.invitationLinkRepository` (`CreateInvitation`,
`ValidateAndConsumeInvitation`, `redisKey`) and its constructor
`NewInvitationLinkRepository`, which builds the hashids handle with
`MinLength = 8` and fixes the 24-hour expiration.  Redis infrastructure
failures ("failed to save invitation", "failed to access Redis") are out of
scope: the store is modelled as available, so `Set`/`Del` always succeed.
-/

/-- One hour, in seconds (stands in for Go's `time.Hour`). -/
def hour : Nat := 3600

/-- The invitation repository value: the hashids handle and the TTL. -/
structure InvitationLinkRepository where
  hashID : HashID
  expiration : Nat
deriving Repr, DecidableEq

/-- `NewInvitationLinkRepository(redisClient, salt)`: `MinLength = 8`,
`expiration = 24 * time.Hour`. -/
def NewInvitationLinkRepository (salt : String) : InvitationLinkRepository :=
  { hashID := { salt := salt, minLength := 8 }, expiration := 24 * hour }

/-- `redisKey`: the store key `"invitation:%d:%d:%d"` for a tuple. -/
def redisKey (userID apartmentID managerID : Nat) : String :=
  "invitation:" ++ toString userID ++ ":" ++ toString apartmentID ++ ":"
    ++ toString managerID

/-- `CreateInvitation(ctx, userID, apartmentID, managerID)`: encodes the
tuple and writes the presence entry (value `"1"`) with the 24h TTL;
returns the code. -/
def InvitationLinkRepository.CreateInvitation (r : InvitationLinkRepository)
    (store : Store) (now : Nat) (userID apartmentID managerID : Nat) :
    String × Store :=
  let code := r.hashID.encode userID apartmentID managerID
  let key := redisKey userID apartmentID managerID
  (code, store.set key "1" (some (now + r.expiration)))

/-- `ValidateAndConsumeInvitation(ctx, code)`: decodes the code (rejecting
anything that is not exactly 3 integers), then atomically deletes the
decoded key; the delete count alone decides success.  Returns the Go-style
`(int, error)` pair — `(apartmentID, nil)` on success, `(0, msg)` on
failure — together with the updated store. -/
def InvitationLinkRepository.ValidateAndConsumeInvitation
    (r : InvitationLinkRepository) (store : Store) (now : Nat)
    (code : String) : (Nat × Option String) × Store :=
  match r.hashID.decode code with
  | some [userID, apartmentID, managerID] =>
    let key := redisKey userID apartmentID managerID
    let res := store.del now key
    if res.2 = 0 then ((0, some "invitation not found or already used"), res.1)
    else ((apartmentID, none), res.1)
  | _ => ((0, some "invalid or tampered code"), store)

/-!
## Apartment service

Embeds `services.apartmentServiceImpl.JoinApartment` and
`InviteUserToApartment`.  The relational collaborators are modelled from
their repository implementations: `user_apartments` rows
(`models.User_apartment`), `IsUserInApartment`, `IsUserManagerOfApartment`
(one row per (user, apartment) pair, manager status from `is_manager`),
`CreateUserApartment` (append), and `GetUserByTelegramUser`.  The
notification collaborator's failure/success is an explicit boolean
(`JoinApartment` ignores its notification error entirely; a create-row
failure is an explicit boolean `createOk` since the database itself is out
of scope).
-/

/-- A `user_apartments` row (`models.User_apartment`). -/
structure User_apartment where
  userID : Nat
  apartmentID : Nat
  isManager : Bool
deriving Repr, DecidableEq

/-- `IsUserInApartment`: does a membership row exist?  (In Go the repo
reports absence through the sentinel error "not in apartment", which both
services treat as a plain `false`.) -/
def isUserInApartment (mem : List User_apartment) (userID apartmentID : Nat) : Bool :=
  mem.any fun m => m.userID == userID && m.apartmentID == apartmentID

/-- `IsUserManagerOfApartment`: the membership row's `is_manager` flag. -/
def isUserManagerOfApartment (mem : List User_apartment) (userID apartmentID : Nat) : Bool :=
  mem.any fun m => m.userID == userID && m.apartmentID == apartmentID && m.isManager

/-- A `users` row, reduced to the fields the invitation flow reads. -/
structure UserRec where
  id : Nat
  telegramUser : String
deriving Repr, DecidableEq

/-- `GetUserByTelegramUser`: business-key lookup of the invitee. -/
def getUserByTelegramUser (users : List UserRec) (handle : String) : Option UserRec :=
  users.find? fun u => u.telegramUser == handle

/-- `JoinApartment(ctx, userID, invitationCode)`: validates and consumes
the code first (any error from that step is returned verbatim), then
checks the caller's own membership, then creates the caller's membership
row with `isManager = false`.  `createOk` models whether
`CreateUserApartment` succeeds; the follow-up notification's error is
ignored by the source.  Returns the result with the updated store and
membership table. -/
def JoinApartment (r : InvitationLinkRepository) (store : Store)
    (mem : List User_apartment) (now : Nat) (userID : Nat)
    (invitationCode : String) (createOk : Bool) :
    Except String String × Store × List User_apartment :=
  match r.ValidateAndConsumeInvitation store now invitationCode with
  | ((_, some e), store') => (.error e, store', mem)
  | ((apartmentID, none), store') =>
    if isUserInApartment mem userID apartmentID then
      (.error "you are already a resident of this apartment", store', mem)
    else if createOk then
      (.ok "joined apartment", store',
        mem ++ [{ userID := userID, apartmentID := apartmentID, isManager := false }])
    else
      (.error "failed to join apartment", store', mem)

/-- `InviteUserToApartment(ctx, managerID, apartmentID, telegramUsername)`:
manager check, handle resolution, duplicate-membership check, then code
generation + store write, then notification.  (The repository's
`IsUserManagerOfApartment` returns a non-nil error in every not-manager
case, so the service's reachable authorization error is the wrapped
"failed to verify apartment manager status" one.)  On success returns the
`expires_at` timestamp `now + 24h`. -/
def InviteUserToApartment (r : InvitationLinkRepository) (store : Store)
    (users : List UserRec) (mem : List User_apartment) (now : Nat)
    (managerID apartmentID : Nat) (telegramUsername : String)
    (notifyOk : Bool) : Except String Nat × Store :=
  if !(isUserManagerOfApartment mem managerID apartmentID) then
    (.error "failed to verify apartment manager status: not manager", store)
  else
    match getUserByTelegramUser users telegramUsername with
    | none => (.error "user with this Telegram username not found", store)
    | some receiver =>
      if isUserInApartment mem receiver.id apartmentID then
        (.error "user is already a resident of this apartment", store)
      else
        let res := r.CreateInvitation store now receiver.id apartmentID managerID
        if notifyOk then (.ok (now + 24 * hour), res.2)
        else (.error "invitation created but failed to send notification", res.2)

/-!
## Payment pipeline

Embeds the idempotency gate `payment.paymentImpl.PayBills` /
`billPaymentKey`, the payment repository operations
(`UpdatePaymentsStatus`, `GetPendingPaymentsByUser`,
`GetPaymentByBillAndUser`, `CreatePayment`), and the bill service
operations `PayBills`, `PayBatchBills` and `DivideAllBills`.

`models.Payment.Amount` is a string in Go, a `DECIMAL(12, 2)` in the
database, parsed with `strconv.ParseFloat` and produced with
`fmt.Sprintf("%.2f", ...)`; this decimal plumbing is modelled by carrying
amounts as exact rationals.  `time.Now()` is a `now : Nat` parameter; a Go
zero `time.Time` is `0`.
-/

/-- `models.PaymentStatus`. -/
inductive PaymentStatus where
  | pending
  | paid
  | failed
deriving Repr, DecidableEq

/-- A `payments` row (`models.Payment`), also the value the services build
to describe a status update. -/
structure Payment where
  id : Nat
  billID : Nat
  userID : Nat
  amount : Rat
  paidAt : Nat
  createdAt : Nat
  updatedAt : Nat
  paymentStatus : PaymentStatus
deriving Repr, DecidableEq

/-- `billPaymentKey(paymentID, idempotentKey)`: the idempotency-record
key `"bill_payment:%d:%s"`. -/
def billPaymentKey (paymentID : Nat) (idempotentKey : String) : String :=
  "bill_payment:" ++ toString paymentID ++ ":" ++ idempotentKey

/-- The idempotency gate `paymentImpl.PayBills(paymentIDs, idempotentKey)`:
for each id, if the key already exists the id is skipped (`continue`) with
no error, otherwise the sentinel `"processed"` is stored with expiration
`0`, i.e. no TTL.  In the available-store model the Redis `Exists`/`Set`
calls cannot fail, so the returned Go error is always nil and the result
is just the updated store. -/
def paymentPayBills (redis : Store) (now : Nat) (paymentIDs : List Nat)
    (idempotentKey : String) : Store :=
  paymentIDs.foldl
    (fun st billID =>
      if st.live now (billPaymentKey billID idempotentKey) then st
      else st.set (billPaymentKey billID idempotentKey) "processed" none)
    redis

/-- `paymentRepositoryImpl.UpdatePaymentsStatus`: inside one transaction,
for each given payment value runs
`UPDATE payments SET payment_status, paid_at, updated_at WHERE id = :id`
(`user_id` and the other columns are not written). -/
def updatePaymentsStatus (payments : List Payment) (ups : List Payment) :
    List Payment :=
  ups.foldl
    (fun rows u =>
      rows.map fun row =>
        if row.id == u.id then
          { row with paymentStatus := u.paymentStatus, paidAt := u.paidAt,
                     updatedAt := u.updatedAt }
        else row)
    payments

/-- `paymentRepositoryImpl.GetPendingPaymentsByUser`:
`WHERE user_id = $1 and payment_status = 'pending'`. -/
def getPendingPaymentsByUser (payments : List Payment) (userID : Nat) :
    List Payment :=
  payments.filter fun p =>
    p.userID == userID && p.paymentStatus == PaymentStatus.pending

/-- `GetPaymentByBillAndUser`: `WHERE bill_id = $1 AND user_id = $2`. -/
def getPaymentByBillAndUser (payments : List Payment) (billID userID : Nat) :
    Option Payment :=
  payments.find? fun p => p.billID == billID && p.userID == userID

/-- `billServiceImpl.PayBills(ctx, userID, paymentIDs, idempotentKey)`:
runs the gate over all given ids, then unconditionally builds one
`models.Payment{ID, UserID, PaidAt: now, UpdatedAt: now, PaymentStatus:
Paid}` per given id and bulk-updates them all — the gate's per-id skip
result is not consulted before the relational write. -/
def servicePayBills (payments : List Payment) (redis : Store) (now : Nat)
    (userID : Nat) (paymentIDs : List Nat) (idempotentKey : String) :
    List Payment × Store :=
  let redis' := paymentPayBills redis now paymentIDs idempotentKey
  let ups := paymentIDs.map fun paymentID =>
    { id := paymentID, billID := 0, userID := userID, amount := 0,
      paidAt := now, createdAt := 0, updatedAt := now,
      paymentStatus := PaymentStatus.paid : Payment }
  (updatePaymentsStatus payments ups, redis')

/-- `billServiceImpl.PayBatchBills(ctx, userID, idempotentKey)`: fetches
the user's pending payments, then — starting from `make([]int, 10)`, a
slice that already holds ten zero ids — appends each pending payment's id
and adds its parsed amount to the running total, errors if the id slice is
empty (dead code given the ten zeros), then runs the same gate + bulk
status update over the accumulated id slice and reports the total amount.
Returns the Go `(map, error)` outcome with the updated database and
store. -/
def servicePayBatchBills (payments : List Payment) (redis : Store)
    (now : Nat) (userID : Nat) (idempotentKey : String) :
    Except String Rat × List Payment × Store :=
  let pendings := getPendingPaymentsByUser payments userID
  let acc := pendings.foldl
    (fun (acc : List Nat × Rat) payment =>
      (acc.1 ++ [payment.id], acc.2 + payment.amount))
    (List.replicate 10 0, 0)
  let paymentIds := acc.1
  let totalAmount := acc.2
  if paymentIds.length = 0 then
    (.error "no valid unpaid bills found", payments, redis)
  else
    let redis' := paymentPayBills redis now paymentIds idempotentKey
    let ups := paymentIds.map fun paymentID =>
      { id := paymentID, billID := 0, userID := userID, amount := 0,
        paidAt := now, createdAt := 0, updatedAt := now,
        paymentStatus := PaymentStatus.paid : Payment }
    (.ok totalAmount, updatePaymentsStatus payments ups, redis')

/-!
## Bill division

Embeds `billServiceImpl.DivideAllBills` together with the repository reads
it performs (`GetResidentsInApartment`, `GetUndividedBillsByApartment`) and
the `CreatePayment` insert.  In the available-database model
`CreatePayment` always succeeds, so the per-resident failure branch (which
only marks the bill as failed in the response summary) is never taken and
the response's failed-bill fields stay empty; the `bill_types_processed`
count map of the Go response is not modelled.  Bill notifications are
fire-and-observe and do not influence state.
-/

/-- A `bills` row (`models.Bill`), reduced to the fields bill division
reads; `billType` is the `models.BillType` string. -/
structure Bill where
  id : Nat
  apartmentID : Nat
  billType : String
  totalAmount : Rat
deriving Repr, DecidableEq

/-- The relational state the bill service sees: bills, payments,
memberships, and the next `SERIAL` payment id. -/
structure BillsDB where
  bills : List Bill
  payments : List Payment
  memberships : List User_apartment
  nextPaymentId : Nat
deriving Repr, DecidableEq

/-- `GetResidentsInApartment`: the users having a membership row for the
apartment (the service only reads their ids). -/
def getResidentsInApartment (db : BillsDB) (apartmentID : Nat) : List Nat :=
  (db.memberships.filter fun m => m.apartmentID == apartmentID).map
    fun m => m.userID

/-- `GetUndividedBillsByApartment`: bills of the apartment with no payment
row at all (`NOT EXISTS (SELECT 1 FROM payments p WHERE p.bill_id =
b.id)`), in creation order. -/
def getUndividedBillsByApartment (db : BillsDB) (apartmentID : Nat) :
    List Bill :=
  db.bills.filter fun b =>
    b.apartmentID == apartmentID
      && !(db.payments.any fun p => p.billID == b.id)

/-- The inner resident loop of `DivideAllBills` for one bill: skip the
resident if a `(bill, resident)` payment row already exists, else insert a
pending row with the per-resident amount. -/
def divideBillForResidents (db : BillsDB) (now : Nat) (bill : Bill)
    (residents : List Nat) (amountPerResident : Rat) : BillsDB :=
  residents.foldl
    (fun d resident =>
      match getPaymentByBillAndUser d.payments bill.id resident with
      | some _ => d
      | none =>
        { d with
          payments := d.payments ++
            [{ id := d.nextPaymentId, billID := bill.id, userID := resident,
               amount := amountPerResident, paidAt := 0, createdAt := now,
               updatedAt := now, paymentStatus := PaymentStatus.pending }],
          nextPaymentId := d.nextPaymentId + 1 })
    db

/-- The `DivideAllBills` response summary (`residents_count`,
`processed_bills`, `processed_count`). -/
structure DivideResponse where
  residentsCount : Nat
  processedBills : List Nat
  processedCount : Nat
deriving Repr, DecidableEq

/-- `billServiceImpl.DivideAllBills(ctx, userID, apartmentID)`: manager
check, residents fetch (error when empty), undivided-bill fetch (error
when empty), then for each bill the per-resident fan-out with
`amountPerResident = bill.TotalAmount / len(residents)`. -/
def DivideAllBills (db : BillsDB) (now : Nat) (userID apartmentID : Nat) :
    Except String DivideResponse × BillsDB :=
  if !(isUserManagerOfApartment db.memberships userID apartmentID) then
    (.error "failed to verify manager status: not manager", db)
  else
    let residents := getResidentsInApartment db apartmentID
    if residents.length = 0 then
      (.error "no residents found in apartment", db)
    else
      let bills := getUndividedBillsByApartment db apartmentID
      if bills.length = 0 then
        (.error "no undivided bills found in apartment", db)
      else
        let db' := bills.foldl
          (fun d bill =>
            divideBillForResidents d now bill residents
              (bill.totalAmount / (residents.length : Rat)))
          db
        (.ok { residentsCount := residents.length,
               processedBills := bills.map fun b => b.id,
               processedCount := bills.length }, db')

/-!
## Store lemmas
-/

/-- A freshly set entry with expiry `e` is live at any time before `e`. -/
theorem Store.live_set_lt (st : Store) (k v : String) (e t : Nat)
    (h : t < e) : (st.set k v (some e)).live t k = true := by
  simp [Store.set, Store.live, h]

/-- After filtering a key out, the key is not live at any time. -/
theorem Store.live_filter_self (st : Store) (t : Nat) (k : String) :
    Store.live (st.filter fun e => !(e.key == k)) t k = false := by
  simp only [Store.live]
  rw [List.any_eq_false]
  intro e he
  have hk := (List.mem_filter.mp he).2
  simp only [Bool.not_eq_true'] at hk
  simp [hk]

/-- Filtering a key out of a store that just set that key undoes the
set's head entry. -/
theorem Store.filter_set (st : Store) (k v : String) (exp : Option Nat) :
    ((st.set k v exp).filter fun e => !(e.key == k))
      = st.filter fun e => !(e.key == k) := by
  simp [Store.set, List.filter_filter]

/-- Deleting a just-set, still-live key removes it and reports count 1. -/
theorem Store.del_set (st : Store) (k v : String) (e t : Nat) (h : t < e) :
    (st.set k v (some e)).del t k
      = ((st.set k v (some e)).filter fun x => !(x.key == k), 1) := by
  unfold Store.del
  rw [Store.live_set_lt st k v e t h]
  simp

/-- Deleting a filtered-out key is a no-op reporting count 0. -/
theorem Store.del_filter_self (st : Store) (t' : Nat) (k : String) :
    Store.del (st.filter fun e => !(e.key == k)) t' k
      = (st.filter fun e => !(e.key == k), 0) := by
  unfold Store.del
  rw [Store.live_filter_self st t' k]
  simp

/-!
## Invitation claims
-/

/-- Claim C1: for every triple `(inviteeID, apartmentID, inviterID)` whose
`CreateInvitation` succeeds against an available store, the first
`ValidateAndConsumeInvitation` call with the returned code (within the
TTL) succeeds and returns `apartmentID`, and a second call with the same
code — with no intervening re-invite — fails with the
"invitation not found or already used" error, the outcome in each case
being decided solely by the atomic delete's count. -/
theorem invitation_code_single_use
    (salt code : String) (store store₁ : Store) (now t₁ t₂ u a m : Nat)
    (r : InvitationLinkRepository)
    (hr : r = NewInvitationLinkRepository salt)
    (hcreate : r.CreateInvitation store now u a m = (code, store₁))
    (ht : t₁ < now + r.expiration) :
    r.ValidateAndConsumeInvitation store₁ t₁ code
      = ((a, none), store₁.filter fun e => !(e.key == redisKey u a m))
    ∧ r.ValidateAndConsumeInvitation
        (store₁.filter fun e => !(e.key == redisKey u a m)) t₂ code
      = ((0, some "invitation not found or already used"),
         store₁.filter fun e => !(e.key == redisKey u a m)) := by
  subst hr
  have hcode : code = (NewInvitationLinkRepository salt).hashID.encode u a m :=
    (congrArg Prod.fst hcreate).symm
  have hstore : store₁ = Store.set store (redisKey u a m) "1"
      (some (now + (NewInvitationLinkRepository salt).expiration)) :=
    (congrArg Prod.snd hcreate).symm
  subst hcode
  subst hstore
  constructor
  · unfold InvitationLinkRepository.ValidateAndConsumeInvitation
    simp only [hashid_decode_encode]
    rw [Store.del_set _ _ _ _ _ ht]
    simp [Store.filter_set]
  · unfold InvitationLinkRepository.ValidateAndConsumeInvitation
    simp only [hashid_decode_encode]
    rw [Store.del_filter_self]
    simp

/-- Witness for C1 at `(1, 2, 3)` with salt `"test-salt"`: the concrete
code is `"jjj0X1X2"`, the first consumption at time 0 returns apartment 2
and empties the store, the second at time 7 reports the already-used
error. -/
theorem invitation_code_single_use_witness :
    (NewInvitationLinkRepository "test-salt").CreateInvitation [] 0 1 2 3
      = ("jjj0X1X2", [⟨"invitation:1:2:3", "1", some 86400⟩])
    ∧ (0 : Nat) < 0 + (NewInvitationLinkRepository "test-salt").expiration
    ∧ (NewInvitationLinkRepository "test-salt").ValidateAndConsumeInvitation
        [⟨"invitation:1:2:3", "1", some 86400⟩] 0 "jjj0X1X2"
      = ((2, none), [])
    ∧ (NewInvitationLinkRepository "test-salt").ValidateAndConsumeInvitation [] 7 "jjj0X1X2"
      = ((0, some "invitation not found or already used"), []) := by
  have h := invitation_code_single_use "test-salt" "jjj0X1X2" []
    [⟨"invitation:1:2:3", "1", some 86400⟩] 0 0 7 1 2 3 _ rfl (by decide) (by decide)
  exact ⟨by decide, by decide, h.1, h.2⟩

/-- Claim C6: for every salt and every integer triple `(a, b, c)` in the
encoder's domain, decoding the code produced by encoding `(a, b, c)` with
the same salt yields exactly `(a, b, c)` — `Decode(Encode(a,b,c)) ==
(a,b,c)` — so a consumed code is mapped back to the tuple (hence the store
key) under which the invitation was created. -/
theorem codec_roundtrip_triple (h : HashID) (a b c : Nat) :
    h.decode (h.encode a b c) = some [a, b, c]
    ∧ decodeTriple h (h.encode a b c) = some (a, b, c) := by
  refine ⟨hashid_decode_encode h a b c, ?_⟩
  unfold decodeTriple
  rw [hashid_decode_encode]

/-- Claim C9: any string that does not decode to exactly 3 integers
(tampered, malformed, foreign, or empty) makes
`ValidateAndConsumeInvitation` fail with the "invalid or tampered code"
error and apartment id 0, with the store untouched — no wrong tuple, no
store access. -/
theorem consume_rejects_undecodable
    (r : InvitationLinkRepository) (store : Store) (now : Nat)
    (code : String) (hbad : decodeTriple r.hashID code = none) :
    r.ValidateAndConsumeInvitation store now code
      = ((0, some "invalid or tampered code"), store) := by
  unfold InvitationLinkRepository.ValidateAndConsumeInvitation
  unfold decodeTriple at hbad
  split
  · rename_i u a m heq
    rw [heq] at hbad
    simp at hbad
  · rfl

/-- Witness for C9: the malformed strings `"invalid-code"` and `""` are
both rejected with the exact error and leave a populated store
unchanged. -/
theorem consume_rejects_undecodable_witness :
    decodeTriple (NewInvitationLinkRepository "test-salt").hashID "invalid-code" = none
    ∧ decodeTriple (NewInvitationLinkRepository "test-salt").hashID "" = none
    ∧ (NewInvitationLinkRepository "test-salt").ValidateAndConsumeInvitation
        [⟨"invitation:1:2:3", "1", some 86400⟩] 0 "invalid-code"
      = ((0, some "invalid or tampered code"), [⟨"invitation:1:2:3", "1", some 86400⟩])
    ∧ (NewInvitationLinkRepository "test-salt").ValidateAndConsumeInvitation
        [⟨"invitation:1:2:3", "1", some 86400⟩] 0 ""
      = ((0, some "invalid or tampered code"), [⟨"invitation:1:2:3", "1", some 86400⟩]) :=
  ⟨by decide, by decide,
   consume_rejects_undecodable _ _ _ _ (by decide),
   consume_rejects_undecodable _ _ _ _ (by decide)⟩

/-- Claim C7: consuming a valid unconsumed invitation followed by
membership creation succeeds for any calling user who is not already a
member — even when the caller differs from the embedded invitee id — and
the membership row is created for the calling user with
`isManager = false`; the returned code has length at least 8. -/
theorem join_trusts_code_holder
    (salt code : String) (store store₁ : Store) (mem : List User_apartment)
    (now t₁ u a m caller : Nat) (r : InvitationLinkRepository)
    (hr : r = NewInvitationLinkRepository salt)
    (hcreate : r.CreateInvitation store now u a m = (code, store₁))
    (hmem : isUserInApartment mem caller a = false)
    (ht : t₁ < now + r.expiration) :
    8 ≤ code.length
    ∧ JoinApartment r store₁ mem t₁ caller code true
      = (.ok "joined apartment",
         store₁.filter (fun e => !(e.key == redisKey u a m)),
         mem ++ [{ userID := caller, apartmentID := a, isManager := false }]) := by
  subst hr
  have hcode : code = (NewInvitationLinkRepository salt).hashID.encode u a m :=
    (congrArg Prod.fst hcreate).symm
  have hstore : store₁ = Store.set store (redisKey u a m) "1"
      (some (now + (NewInvitationLinkRepository salt).expiration)) :=
    (congrArg Prod.snd hcreate).symm
  subst hcode
  subst hstore
  refine ⟨encode_length (NewInvitationLinkRepository salt).hashID u a m, ?_⟩
  unfold JoinApartment InvitationLinkRepository.ValidateAndConsumeInvitation
  simp only [hashid_decode_encode]
  rw [Store.del_set _ _ _ _ _ ht]
  simp [Store.filter_set, hmem]

/-- Witness for C7, mirroring the spec's scenario: invitation for
apartment 5 created by manager 1 targeting user 9; the 8-character code is
consumed by the different user 4, who joins apartment 5. -/
theorem join_trusts_code_holder_witness :
    (NewInvitationLinkRepository "test-salt").CreateInvitation [] 0 9 5 1
      = ("jjj8X4X0", [⟨"invitation:9:5:1", "1", some 86400⟩])
    ∧ isUserInApartment [] 4 5 = false
    ∧ (0 : Nat) < 0 + (NewInvitationLinkRepository "test-salt").expiration
    ∧ 8 ≤ ("jjj8X4X0" : String).length
    ∧ JoinApartment (NewInvitationLinkRepository "test-salt")
        [⟨"invitation:9:5:1", "1", some 86400⟩] [] 0 4 "jjj8X4X0" true
      = (.ok "joined apartment", [],
         [{ userID := 4, apartmentID := 5, isManager := false }]) := by
  have h := join_trusts_code_holder "test-salt" "jjj8X4X0" []
    [⟨"invitation:9:5:1", "1", some 86400⟩] [] 0 0 9 5 1 4 _ rfl (by decide)
    (by decide) (by decide)
  exact ⟨by decide, by decide, by decide, h.1, h.2⟩

/-- Claim C10: when the membership insert fails after the invitation was
atomically consumed, `JoinApartment` reports the join error but the store
entry is not restored — the code is permanently consumed with no
membership created, and every retry with the same code fails with the
already-used error. -/
theorem join_failure_leaves_code_consumed
    (salt code : String) (store store₁ : Store) (mem : List User_apartment)
    (now t₁ u a m caller : Nat) (r : InvitationLinkRepository)
    (hr : r = NewInvitationLinkRepository salt)
    (hcreate : r.CreateInvitation store now u a m = (code, store₁))
    (hmem : isUserInApartment mem caller a = false)
    (ht : t₁ < now + r.expiration) :
    JoinApartment r store₁ mem t₁ caller code false
      = (.error "failed to join apartment",
         store₁.filter (fun e => !(e.key == redisKey u a m)), mem)
    ∧ ∀ t₂ createOk₂,
        (JoinApartment r (store₁.filter fun e => !(e.key == redisKey u a m))
            mem t₂ caller code createOk₂).1
          = .error "invitation not found or already used" := by
  subst hr
  have hcode : code = (NewInvitationLinkRepository salt).hashID.encode u a m :=
    (congrArg Prod.fst hcreate).symm
  have hstore : store₁ = Store.set store (redisKey u a m) "1"
      (some (now + (NewInvitationLinkRepository salt).expiration)) :=
    (congrArg Prod.snd hcreate).symm
  subst hcode
  subst hstore
  constructor
  · unfold JoinApartment InvitationLinkRepository.ValidateAndConsumeInvitation
    simp only [hashid_decode_encode]
    rw [Store.del_set _ _ _ _ _ ht]
    simp [Store.filter_set, hmem]
  · intro t₂ createOk₂
    unfold JoinApartment InvitationLinkRepository.ValidateAndConsumeInvitation
    simp only [hashid_decode_encode]
    rw [Store.del_filter_self]
    simp

/-- Witness for C10: user 4's join with a failing membership insert
consumes the code `"jjj0X1X2"`; the retry (with a succeeding insert)
still fails with the already-used error. -/
theorem join_failure_leaves_code_consumed_witness :
    (NewInvitationLinkRepository "test-salt").CreateInvitation [] 0 1 2 3
      = ("jjj0X1X2", [⟨"invitation:1:2:3", "1", some 86400⟩])
    ∧ isUserInApartment [] 4 2 = false
    ∧ (0 : Nat) < 0 + (NewInvitationLinkRepository "test-salt").expiration
    ∧ JoinApartment (NewInvitationLinkRepository "test-salt")
        [⟨"invitation:1:2:3", "1", some 86400⟩] [] 0 4 "jjj0X1X2" false
      = (.error "failed to join apartment", [], [])
    ∧ (JoinApartment (NewInvitationLinkRepository "test-salt") [] [] 9 4 "jjj0X1X2" true).1
      = .error "invitation not found or already used" := by
  have h := join_failure_leaves_code_consumed "test-salt" "jjj0X1X2" []
    [⟨"invitation:1:2:3", "1", some 86400⟩] [] 0 0 1 2 3 4 _ rfl (by decide)
    (by decide) (by decide)
  exact ⟨by decide, by decide, by decide, h.1, h.2 9 true⟩

/-- Deleting a live key removes exactly that key and reports count 1. -/
theorem Store.del_of_live (st : Store) (t : Nat) (k : String)
    (h : st.live t k = true) :
    st.del t k = (st.filter fun e => !(e.key == k), 1) := by
  unfold Store.del
  rw [h]
  simp

/-- Claim C5 (amended): `InviteUserToApartment` returns its authorization
and validation errors (not-manager, user-not-found, already-member)
immediately with the store unchanged, and `JoinApartment` returns the
invalid-code error with store and memberships unchanged; but
`JoinApartment`'s already-member error is raised only after the invitation
was atomically consumed: the store entry for the presented code has been
deleted and is not restored. -/
theorem auth_validation_error_effects :
    (∀ (r : InvitationLinkRepository) (store : Store) (users : List UserRec)
        (mem : List User_apartment) (now managerID apartmentID : Nat)
        (handle : String) (notifyOk : Bool) (msg : String),
        (InviteUserToApartment r store users mem now managerID apartmentID
            handle notifyOk).1 = .error msg →
        (msg = "failed to verify apartment manager status: not manager"
          ∨ msg = "user with this Telegram username not found"
          ∨ msg = "user is already a resident of this apartment") →
        (InviteUserToApartment r store users mem now managerID apartmentID
            handle notifyOk).2 = store)
    ∧ (∀ (r : InvitationLinkRepository) (store : Store)
        (mem : List User_apartment) (now userID : Nat) (code : String)
        (createOk : Bool),
        decodeTriple r.hashID code = none →
        JoinApartment r store mem now userID code createOk
          = (.error "invalid or tampered code", store, mem))
    ∧ (∀ (r : InvitationLinkRepository) (store : Store)
        (mem : List User_apartment) (now userID : Nat) (code : String)
        (createOk : Bool) (u a m : Nat),
        r.hashID.decode code = some [u, a, m] →
        Store.live store now (redisKey u a m) = true →
        isUserInApartment mem userID a = true →
        JoinApartment r store mem now userID code createOk
          = (.error "you are already a resident of this apartment",
             store.filter fun e => !(e.key == redisKey u a m), mem)
          ∧ Store.live (store.filter fun e => !(e.key == redisKey u a m))
              now (redisKey u a m) = false) := by
  refine ⟨?_, ?_, ?_⟩
  · intro r store users mem now managerID apartmentID handle notifyOk msg herr hmsg
    unfold InviteUserToApartment at herr ⊢
    cases hmgr : isUserManagerOfApartment mem managerID apartmentID with
    | false => simp [hmgr]
    | true =>
      cases hu : getUserByTelegramUser users handle with
      | none => simp [hmgr, hu]
      | some receiver =>
        cases hres : isUserInApartment mem receiver.id apartmentID with
        | true => simp [hmgr, hu, hres]
        | false =>
          cases notifyOk with
          | true =>
            simp only [hmgr, hu, hres, Bool.not_true, Bool.false_eq_true,
              if_false, if_true] at herr
            simp at herr
          | false =>
            simp only [hmgr, hu, hres, Bool.not_true, Bool.false_eq_true,
              if_false] at herr
            simp only [Except.error.injEq] at herr
            subst herr
            rcases hmsg with hm | hm | hm <;> exact absurd hm (by decide)
  · intro r store mem now userID code createOk hbad
    have hval : r.ValidateAndConsumeInvitation store now code
        = ((0, some "invalid or tampered code"), store) := by
      unfold decodeTriple at hbad
      unfold InvitationLinkRepository.ValidateAndConsumeInvitation
      split
      · rename_i u a m heq
        rw [heq] at hbad
        simp at hbad
      · rfl
    unfold JoinApartment
    rw [hval]
  · intro r store mem now userID code createOk u a m hdec hlive hres
    unfold JoinApartment InvitationLinkRepository.ValidateAndConsumeInvitation
    rw [hdec]
    dsimp only
    rw [Store.del_of_live store now (redisKey u a m) hlive]
    refine ⟨by simp [hres], Store.live_filter_self store now (redisKey u a m)⟩

/-- Witness for C5 (amended): concrete instantiation of each part — a
non-manager's invite attempt and an unknown handle leave the store
unchanged; a malformed join code changes nothing; a join by the existing
resident 4 returns the already-member error with the invitation entry
deleted. -/
theorem auth_validation_error_effects_witness :
    (InviteUserToApartment (NewInvitationLinkRepository "test-salt")
        [⟨"invitation:1:2:3", "1", some 86400⟩] [⟨9, "bob"⟩] [] 0 1 2 "bob" true).2
      = [⟨"invitation:1:2:3", "1", some 86400⟩]
    ∧ JoinApartment (NewInvitationLinkRepository "test-salt")
        [⟨"invitation:1:2:3", "1", some 86400⟩] [⟨4, 2, false⟩] 0 4 "invalid-code" true
      = (.error "invalid or tampered code",
         [⟨"invitation:1:2:3", "1", some 86400⟩], [⟨4, 2, false⟩])
    ∧ JoinApartment (NewInvitationLinkRepository "test-salt")
        [⟨"invitation:1:2:3", "1", some 86400⟩] [⟨4, 2, false⟩] 0 4 "jjj0X1X2" true
      = (.error "you are already a resident of this apartment", [], [⟨4, 2, false⟩]) := by
  have h := auth_validation_error_effects
  refine ⟨h.1 (NewInvitationLinkRepository "test-salt")
      [⟨"invitation:1:2:3", "1", some 86400⟩] [⟨9, "bob"⟩] [] 0 1 2 "bob" true
      "failed to verify apartment manager status: not manager" rfl
      (Or.inl rfl), ?_, ?_⟩
  · exact h.2.1 (NewInvitationLinkRepository "test-salt")
      [⟨"invitation:1:2:3", "1", some 86400⟩] [⟨4, 2, false⟩] 0 4 "invalid-code"
      true (by decide)
  · have h3 := h.2.2 (NewInvitationLinkRepository "test-salt")
      [⟨"invitation:1:2:3", "1", some 86400⟩] [⟨4, 2, false⟩] 0 4 "jjj0X1X2"
      true 1 2 3 (by decide) (by decide) (by decide)
    exact h3.1

/-- Counterexample to C5 as stated: with a valid invitation entry present
and caller 4 already a member of apartment 2, `JoinApartment` returns the
already-member error, yet the invitation store entry has been consumed
(live before the call, gone after) — not left unchanged. -/
theorem join_already_member_consumes_entry_cex :
    Store.live [⟨"invitation:1:2:3", "1", some 86400⟩] 0 "invitation:1:2:3" = true
    ∧ JoinApartment (NewInvitationLinkRepository "test-salt")
        [⟨"invitation:1:2:3", "1", some 86400⟩] [⟨4, 2, false⟩] 0 4 "jjj0X1X2" true
      = (.error "you are already a resident of this apartment", [], [⟨4, 2, false⟩])
    ∧ Store.live [] 0 "invitation:1:2:3" = false := by
  refine ⟨by decide, by rfl, by decide⟩

/-!
## Idempotency gate lemmas
-/

/-- A key held by an entry with no expiry is live at every time. -/
theorem Store.live_of_none_entry (st : Store) (t : Nat) (K : String)
    (h : ∃ e ∈ st, e.key = K ∧ e.expiresAt = none) :
    Store.live st t K = true := by
  obtain ⟨e, he, hk, hx⟩ := h
  unfold Store.live
  rw [List.any_eq_true]
  exact ⟨e, he, by simp [hk, hx]⟩

/-- A non-live key stays non-live when entries are removed. -/
theorem Store.live_filter_false (st : Store) (p : Entry → Bool) (t : Nat)
    (K : String) (h : Store.live st t K = false) :
    Store.live (st.filter p) t K = false := by
  unfold Store.live at h ⊢
  rw [List.any_eq_false] at h ⊢
  intro e he
  exact h e (List.mem_filter.mp he).1

/-- Setting one key does not revive a different non-live key. -/
theorem Store.live_set_other_false (st : Store) (k' v : String)
    (exp : Option Nat) (t : Nat) (K : String) (hne : K ≠ k')
    (h : Store.live st t K = false) :
    Store.live (st.set k' v exp) t K = false := by
  unfold Store.set
  unfold Store.live at h ⊢
  rw [List.any_cons, Bool.or_eq_false_iff]
  constructor
  · have hkK : (k' == K) = false := by
      rw [beq_eq_false_iff_ne]
      exact fun hk => hne hk.symm
    simp [hkK]
  · rw [List.any_eq_false]
    intro e he
    rw [List.any_eq_false] at h
    exact h e (List.mem_filter.mp he).1

/-- The gate skips an id whose key is already live and continues with the
remaining ids. -/
theorem paymentPayBills_cons_skip (st : Store) (now id : Nat)
    (rest : List Nat) (k : String)
    (h : Store.live st now (billPaymentKey id k) = true) :
    paymentPayBills st now (id :: rest) k = paymentPayBills st now rest k := by
  unfold paymentPayBills
  rw [List.foldl_cons]
  simp only [h, if_true]

/-- The gate marks a non-live id with the permanent record, then
continues. -/
theorem paymentPayBills_cons_set (st : Store) (now id : Nat)
    (rest : List Nat) (k : String)
    (h : Store.live st now (billPaymentKey id k) = false) :
    paymentPayBills st now (id :: rest) k
      = paymentPayBills (st.set (billPaymentKey id k) "processed" none)
          now rest k := by
  unfold paymentPayBills
  rw [List.foldl_cons]
  simp only [h, Bool.false_eq_true, if_false]

/-- A permanent (no-TTL) record survives every later gate step. -/
theorem gate_preserves_none_entry (ids : List Nat) :
    ∀ (st : Store) (now : Nat) (k K : String),
      (∃ e ∈ st, e.key = K ∧ e.expiresAt = none) →
      ∃ e ∈ paymentPayBills st now ids k, e.key = K ∧ e.expiresAt = none := by
  induction ids with
  | nil => intro st now k K h; exact h
  | cons id rest ih =>
    intro st now k K h
    by_cases hb : Store.live st now (billPaymentKey id k) = true
    · rw [paymentPayBills_cons_skip st now id rest k hb]
      exact ih st now k K h
    · have hb' : Store.live st now (billPaymentKey id k) = false :=
        Bool.eq_false_iff.mpr hb
      rw [paymentPayBills_cons_set st now id rest k hb']
      apply ih
      have hne : K ≠ billPaymentKey id k := by
        intro hKk
        exact hb (hKk ▸ Store.live_of_none_entry st now K h)
      obtain ⟨e, he, hk, hx⟩ := h
      refine ⟨e, ?_, hk, hx⟩
      unfold Store.set
      apply List.mem_cons_of_mem
      refine List.mem_filter.mpr ⟨he, ?_⟩
      simp [hk, hne]

/-- The gate leaves a permanent record for every requested id that was not
live before (the record may also predate the call). -/
theorem gate_establishes_none_entry (ids : List Nat) :
    ∀ (st : Store) (now : Nat) (k : String) (id : Nat),
      id ∈ ids →
      (Store.live st now (billPaymentKey id k) = false ∨
        ∃ e ∈ st, e.key = billPaymentKey id k ∧ e.expiresAt = none) →
      ∃ e ∈ paymentPayBills st now ids k,
        e.key = billPaymentKey id k ∧ e.expiresAt = none := by
  induction ids with
  | nil => intro st now k id hmem; exact absurd hmem (List.not_mem_nil id)
  | cons id₀ rest ih =>
    intro st now k id hmem hdisj
    by_cases hb : Store.live st now (billPaymentKey id₀ k) = true
    · rw [paymentPayBills_cons_skip st now id₀ rest k hb]
      rcases List.mem_cons.mp hmem with rfl | hmem'
      · rcases hdisj with hfalse | hent
        · rw [hfalse] at hb
          cases hb
        · exact gate_preserves_none_entry rest st now k _ hent
      · exact ih st now k id hmem' hdisj
    · have hb' : Store.live st now (billPaymentKey id₀ k) = false :=
        Bool.eq_false_iff.mpr hb
      rw [paymentPayBills_cons_set st now id₀ rest k hb']
      rcases List.mem_cons.mp hmem with rfl | hmem'
      · apply gate_preserves_none_entry rest _ now k
        exact ⟨⟨billPaymentKey id k, "processed", none⟩,
          List.mem_cons_self _ _, rfl, rfl⟩
      · apply ih _ now k id hmem'
        rcases hdisj with hfalse | hent
        · by_cases hkk : billPaymentKey id k = billPaymentKey id₀ k
          · right
            exact ⟨⟨billPaymentKey id₀ k, "processed", none⟩,
              List.mem_cons_self _ _, hkk.symm, rfl⟩
          · left
            exact Store.live_set_other_false st _ _ _ now _ hkk hfalse
        · right
          have hne : billPaymentKey id k ≠ billPaymentKey id₀ k := by
            intro hkk
            have hlive := Store.live_of_none_entry st now _ hent
            rw [hkk] at hlive
            rw [hlive] at hb'
            cases hb'
          obtain ⟨e, he, hk, hx⟩ := hent
          refine ⟨e, ?_, hk, hx⟩
          unfold Store.set
          apply List.mem_cons_of_mem
          refine List.mem_filter.mpr ⟨he, ?_⟩
          simp [hk, hne]

/-- The gate is the identity when every requested key is already live. -/
theorem paymentPayBills_id_of_live (ids : List Nat) :
    ∀ (st : Store) (now : Nat) (k : String),
      (∀ id ∈ ids, Store.live st now (billPaymentKey id k) = true) →
      paymentPayBills st now ids k = st := by
  induction ids with
  | nil => intro st now k _; rfl
  | cons id rest ih =>
    intro st now k h
    rw [paymentPayBills_cons_skip st now id rest k (h id (List.mem_cons_self _ _))]
    exact ih st now k fun i hi => h i (List.mem_cons_of_mem _ hi)

/-!
## Payment status update lemmas
-/

/-- One `UPDATE ... WHERE id = :id` applied to one row. -/
def applyUpdate (u row : Payment) : Payment :=
  if row.id == u.id then
    { row with paymentStatus := u.paymentStatus, paidAt := u.paidAt,
               updatedAt := u.updatedAt }
  else row

/-- The bulk update acts row-wise. -/
theorem updatePaymentsStatus_eq_map (ups : List Payment) :
    ∀ payments : List Payment,
      updatePaymentsStatus payments ups
        = payments.map fun row => ups.foldl (fun r u => applyUpdate u r) row := by
  induction ups with
  | nil =>
    intro payments
    unfold updatePaymentsStatus
    simp
  | cons u us ih =>
    intro payments
    show updatePaymentsStatus (payments.map (applyUpdate u)) us = _
    rw [ih (payments.map (applyUpdate u)), List.map_map]
    rfl

/-- Updates never change a row's id. -/
theorem applyFold_id (ups : List Payment) :
    ∀ r : Payment, (ups.foldl (fun r u => applyUpdate u r) r).id = r.id := by
  induction ups with
  | nil => intro r; rfl
  | cons u us ih =>
    intro r
    rw [List.foldl_cons, ih (applyUpdate u r)]
    unfold applyUpdate
    split <;> rfl

/-- A row matched by no update is untouched. -/
theorem applyFold_no_match (ups : List Payment) :
    ∀ r : Payment, (∀ u ∈ ups, ¬(r.id = u.id)) →
      ups.foldl (fun r u => applyUpdate u r) r = r := by
  induction ups with
  | nil => intro r _; rfl
  | cons u us ih =>
    intro r h
    rw [List.foldl_cons]
    have h0 : applyUpdate u r = r := by
      unfold applyUpdate
      rw [if_neg]
      intro hbeq
      exact h u (List.mem_cons_self _ _) (beq_iff_eq.mp hbeq)
    rw [h0]
    exact ih r fun x hx => h x (List.mem_cons_of_mem _ hx)

/-- A row matched by some update, where every update writes status `paid`
and time `t`, ends with status `paid` and `paidAt = t`. -/
theorem applyFold_fields (t : Nat) (ups : List Payment) :
    ∀ r : Payment,
      (∀ u ∈ ups, u.paymentStatus = PaymentStatus.paid ∧ u.paidAt = t
        ∧ u.updatedAt = t) →
      (∃ u ∈ ups, u.id = r.id) →
      (ups.foldl (fun r u => applyUpdate u r) r).paymentStatus = PaymentStatus.paid
      ∧ (ups.foldl (fun r u => applyUpdate u r) r).paidAt = t := by
  induction ups with
  | nil =>
    intro r _ hex
    obtain ⟨u, hu, _⟩ := hex
    exact absurd hu (List.not_mem_nil u)
  | cons u us ih =>
    intro r hvals hex
    rw [List.foldl_cons]
    by_cases hid : r.id = u.id
    · have hv := hvals u (List.mem_cons_self u us)
      have happ : applyUpdate u r
          = { r with paymentStatus := u.paymentStatus, paidAt := u.paidAt,
                     updatedAt := u.updatedAt } := by
        unfold applyUpdate
        rw [if_pos (beq_iff_eq.mpr hid)]
      rw [happ]
      by_cases hex2 : ∃ u' ∈ us, u'.id
          = ({ r with paymentStatus := u.paymentStatus, paidAt := u.paidAt,
                      updatedAt := u.updatedAt } : Payment).id
      · exact ih _ (fun x hx => hvals x (List.mem_cons_of_mem _ hx)) hex2
      · push_neg at hex2
        rw [applyFold_no_match us _ fun x hx hEq => hex2 x hx hEq.symm]
        exact ⟨hv.1, hv.2.1⟩
    · have happ : applyUpdate u r = r := by
        unfold applyUpdate
        rw [if_neg]
        intro hbeq
        exact hid (beq_iff_eq.mp hbeq)
      rw [happ]
      apply ih r fun x hx => hvals x (List.mem_cons_of_mem _ hx)
      obtain ⟨u₀, hu₀, hid₀⟩ := hex
      rcases List.mem_cons.mp hu₀ with rfl | h'
      · exact absurd hid₀.symm hid
      · exact ⟨u₀, h', hid₀⟩

/-- Row-wise description of the bulk update: a targeted row becomes paid
with the written time, an untargeted row is returned unchanged. -/
theorem updateStatus_rows (payments ups : List Payment) (t : Nat)
    (hvals : ∀ u ∈ ups, u.paymentStatus = PaymentStatus.paid ∧ u.paidAt = t
      ∧ u.updatedAt = t) :
    ∀ p ∈ updatePaymentsStatus payments ups,
      ((∃ u ∈ ups, u.id = p.id) →
        p.paymentStatus = PaymentStatus.paid ∧ p.paidAt = t)
      ∧ ((∀ u ∈ ups, u.id ≠ p.id) → p ∈ payments) := by
  intro p hp
  rw [updatePaymentsStatus_eq_map] at hp
  obtain ⟨row, hrow, rfl⟩ := List.mem_map.mp hp
  have hid := applyFold_id ups row
  constructor
  · intro hex
    rw [hid] at hex
    exact applyFold_fields t ups row hvals hex
  · intro hall
    rw [applyFold_no_match ups row ?_]
    · exact hrow
    · intro u hu hEq
      exact hall u hu (hEq.symm.trans hid.symm)

/-!
## Payment claims
-/

/-- Unfolding equation for the service-level `PayBills`. -/
theorem servicePayBills_def (payments : List Payment) (redis : Store)
    (now uid : Nat) (ids : List Nat) (k : String) :
    servicePayBills payments redis now uid ids k
      = (updatePaymentsStatus payments (ids.map fun paymentID =>
           { id := paymentID, billID := 0, userID := uid, amount := 0,
             paidAt := now, createdAt := 0, updatedAt := now,
             paymentStatus := PaymentStatus.paid }),
         paymentPayBills redis now ids k) := rfl

/-- Claim C2 (amended): calling `PayBills` twice in sequence with the same
arguments transitions the targeted statuses to `paid` once — after either
call every targeted row is `paid`, the second call writes no new
idempotency marker (the Redis store is unchanged), and untargeted rows are
untouched — but the second call re-runs the bulk status update, so it
overwrites `paidAt` (and `updatedAt`) with the second call's time instead
of no-opping: the gate's skip result is never consulted before the
relational write. -/
theorem pay_bills_idempotency_amended
    (payments : List Payment) (redis : Store) (t₁ t₂ uid : Nat)
    (ids : List Nat) (k : String)
    (hfresh : ∀ id ∈ ids, Store.live redis t₁ (billPaymentKey id k) = false) :
    (servicePayBills (servicePayBills payments redis t₁ uid ids k).1
        (servicePayBills payments redis t₁ uid ids k).2 t₂ uid ids k).2
      = (servicePayBills payments redis t₁ uid ids k).2
    ∧ (∀ p ∈ (servicePayBills payments redis t₁ uid ids k).1,
        p.id ∈ ids → p.paymentStatus = PaymentStatus.paid ∧ p.paidAt = t₁)
    ∧ (∀ p ∈ (servicePayBills (servicePayBills payments redis t₁ uid ids k).1
          (servicePayBills payments redis t₁ uid ids k).2 t₂ uid ids k).1,
        (p.id ∈ ids → p.paymentStatus = PaymentStatus.paid ∧ p.paidAt = t₂)
        ∧ (p.id ∉ ids → p ∈ (servicePayBills payments redis t₁ uid ids k).1)) := by
  have hlive : ∀ id ∈ ids, ∀ t,
      Store.live (paymentPayBills redis t₁ ids k) t (billPaymentKey id k) = true := by
    intro id hid t
    exact Store.live_of_none_entry _ t _
      (gate_establishes_none_entry ids redis t₁ k id hid (Or.inl (hfresh id hid)))
  refine ⟨?_, ?_, ?_⟩
  · show paymentPayBills (paymentPayBills redis t₁ ids k) t₂ ids k
        = paymentPayBills redis t₁ ids k
    exact paymentPayBills_id_of_live ids _ t₂ k fun id hid => hlive id hid t₂
  · rw [servicePayBills_def]
    intro p hp hid
    have hvals : ∀ u ∈ ids.map (fun paymentID =>
        ({ id := paymentID, billID := 0, userID := uid, amount := 0,
           paidAt := t₁, createdAt := 0, updatedAt := t₁,
           paymentStatus := PaymentStatus.paid } : Payment)),
        u.paymentStatus = PaymentStatus.paid ∧ u.paidAt = t₁
          ∧ u.updatedAt = t₁ := by
      intro u hu
      obtain ⟨i, _, rfl⟩ := List.mem_map.mp hu
      exact ⟨rfl, rfl, rfl⟩
    have h := updateStatus_rows payments _ t₁ hvals p hp
    exact h.1 ⟨_, List.mem_map.mpr ⟨p.id, hid, rfl⟩, rfl⟩
  · rw [servicePayBills_def, servicePayBills_def]
    intro p hp
    have hvals : ∀ u ∈ ids.map (fun paymentID =>
        ({ id := paymentID, billID := 0, userID := uid, amount := 0,
           paidAt := t₂, createdAt := 0, updatedAt := t₂,
           paymentStatus := PaymentStatus.paid } : Payment)),
        u.paymentStatus = PaymentStatus.paid ∧ u.paidAt = t₂
          ∧ u.updatedAt = t₂ := by
      intro u hu
      obtain ⟨i, _, rfl⟩ := List.mem_map.mp hu
      exact ⟨rfl, rfl, rfl⟩
    have h := updateStatus_rows (servicePayBills payments redis t₁ uid ids k).1
      _ t₂ hvals p hp
    constructor
    · intro hid
      exact h.1 ⟨_, List.mem_map.mpr ⟨p.id, hid, rfl⟩, rfl⟩
    · intro hnid
      apply h.2
      intro u hu
      obtain ⟨i, hi, rfl⟩ := List.mem_map.mp hu
      intro hEq
      exact hnid (hEq ▸ hi)

/-- Witness for C2 (amended) at a single pending payment 7 with key
`"key-A"`, times 100 and 200. -/
theorem pay_bills_idempotency_amended_witness :
    (∀ id ∈ [7], Store.live [] 100 (billPaymentKey id "key-A") = false)
    ∧ ((servicePayBills (servicePayBills
          [{ id := 7, billID := 1, userID := 1, amount := 50, paidAt := 0,
             createdAt := 0, updatedAt := 0,
             paymentStatus := PaymentStatus.pending }] [] 100 1 [7] "key-A").1
        (servicePayBills
          [{ id := 7, billID := 1, userID := 1, amount := 50, paidAt := 0,
             createdAt := 0, updatedAt := 0,
             paymentStatus := PaymentStatus.pending }] [] 100 1 [7] "key-A").2
        200 1 [7] "key-A").2
      = (servicePayBills
          [{ id := 7, billID := 1, userID := 1, amount := 50, paidAt := 0,
             createdAt := 0, updatedAt := 0,
             paymentStatus := PaymentStatus.pending }] [] 100 1 [7] "key-A").2
      ∧ (∀ p ∈ (servicePayBills
          [{ id := 7, billID := 1, userID := 1, amount := 50, paidAt := 0,
             createdAt := 0, updatedAt := 0,
             paymentStatus := PaymentStatus.pending }] [] 100 1 [7] "key-A").1,
          p.id ∈ [7] → p.paymentStatus = PaymentStatus.paid ∧ p.paidAt = 100)
      ∧ (∀ p ∈ (servicePayBills (servicePayBills
            [{ id := 7, billID := 1, userID := 1, amount := 50, paidAt := 0,
               createdAt := 0, updatedAt := 0,
               paymentStatus := PaymentStatus.pending }] [] 100 1 [7] "key-A").1
          (servicePayBills
            [{ id := 7, billID := 1, userID := 1, amount := 50, paidAt := 0,
               createdAt := 0, updatedAt := 0,
               paymentStatus := PaymentStatus.pending }] [] 100 1 [7] "key-A").2
          200 1 [7] "key-A").1,
          (p.id ∈ [7] → p.paymentStatus = PaymentStatus.paid ∧ p.paidAt = 200)
          ∧ (p.id ∉ [7] → p ∈ (servicePayBills
              [{ id := 7, billID := 1, userID := 1, amount := 50, paidAt := 0,
                 createdAt := 0, updatedAt := 0,
                 paymentStatus := PaymentStatus.pending }] [] 100 1 [7] "key-A").1))) :=
  ⟨by decide, pay_bills_idempotency_amended _ [] 100 200 1 [7] "key-A" (by decide)⟩

/-- Counterexample to C2 as stated: with one pending payment 7 and a fresh
idempotency key, the first `PayBills` call at time 100 sets
`paidAt = 100`, and the second call with the same arguments at time 200
overwrites it to `paidAt = 200` — the second call is not free of side
effects beyond the first. -/
theorem pay_bills_overwrites_paid_at_cex :
    ((servicePayBills
        [{ id := 7, billID := 1, userID := 1, amount := 50, paidAt := 0,
           createdAt := 0, updatedAt := 0,
           paymentStatus := PaymentStatus.pending }] [] 100 1 [7] "key-A").1.map
      fun p => p.paidAt) = [100]
    ∧ ((servicePayBills (servicePayBills
          [{ id := 7, billID := 1, userID := 1, amount := 50, paidAt := 0,
             createdAt := 0, updatedAt := 0,
             paymentStatus := PaymentStatus.pending }] [] 100 1 [7] "key-A").1
        (servicePayBills
          [{ id := 7, billID := 1, userID := 1, amount := 50, paidAt := 0,
             createdAt := 0, updatedAt := 0,
             paymentStatus := PaymentStatus.pending }] [] 100 1 [7] "key-A").2
        200 1 [7] "key-A").1.map fun p => p.paidAt) = [200]
    ∧ (100 : Nat) ≠ 200 := by
  refine ⟨by decide, by decide, by decide⟩

/-- Claim C8: once the gate has marked a `(paymentID, idempotencyKey)`
pair, the record carries no TTL, so it never expires — the key is live at
every time — and every later gate run finds it and skips that id silently
(the store is not touched for it) while continuing with the remaining
ids. -/
theorem gate_record_permanent (redis : Store) (now id : Nat) (k : String)
    (hfresh : Store.live redis now (billPaymentKey id k) = false) :
    (∃ e ∈ paymentPayBills redis now [id] k,
        e.key = billPaymentKey id k ∧ e.value = "processed"
          ∧ e.expiresAt = none)
    ∧ (∀ t, Store.live (paymentPayBills redis now [id] k) t
        (billPaymentKey id k) = true)
    ∧ (∀ t rest,
        paymentPayBills (paymentPayBills redis now [id] k) t (id :: rest) k
          = paymentPayBills (paymentPayBills redis now [id] k) t rest k) := by
  have hset : paymentPayBills redis now [id] k
      = redis.set (billPaymentKey id k) "processed" none := by
    rw [paymentPayBills_cons_set redis now id [] k hfresh]
    rfl
  have hent : ∃ e ∈ paymentPayBills redis now [id] k,
      e.key = billPaymentKey id k ∧ e.expiresAt = none := by
    rw [hset]
    exact ⟨⟨billPaymentKey id k, "processed", none⟩,
      List.mem_cons_self _ _, rfl, rfl⟩
  refine ⟨?_, ?_, ?_⟩
  · rw [hset]
    exact ⟨⟨billPaymentKey id k, "processed", none⟩,
      List.mem_cons_self _ _, rfl, rfl, rfl⟩
  · intro t
    exact Store.live_of_none_entry _ t _ hent
  · intro t rest
    exact paymentPayBills_cons_skip _ t id rest k
      (Store.live_of_none_entry _ t _ hent)

/-- Witness for C8: marking payment 7 under `"key-A"` in an empty store
leaves a permanent record that is still found (and skipped) much later. -/
theorem gate_record_permanent_witness :
    Store.live [] 5 (billPaymentKey 7 "key-A") = false
    ∧ (∃ e ∈ paymentPayBills [] 5 [7] "key-A",
        e.key = billPaymentKey 7 "key-A" ∧ e.value = "processed"
          ∧ e.expiresAt = none)
    ∧ (∀ t, Store.live (paymentPayBills [] 5 [7] "key-A") t
        (billPaymentKey 7 "key-A") = true)
    ∧ (∀ t rest,
        paymentPayBills (paymentPayBills [] 5 [7] "key-A") t (7 :: rest) "key-A"
          = paymentPayBills (paymentPayBills [] 5 [7] "key-A") t rest "key-A") := by
  have h := gate_record_permanent [] 5 7 "key-A" (by decide)
  exact ⟨by decide, h.1, h.2.1, h.2.2⟩

/-- Accumulating ids and amounts over the pending payments. -/
theorem foldl_ids_amount (l : List Payment) :
    ∀ (init1 : List Nat) (init2 : Rat),
      l.foldl (fun (acc : List Nat × Rat) payment =>
          (acc.1 ++ [payment.id], acc.2 + payment.amount)) (init1, init2)
        = (init1 ++ l.map fun p => p.id,
           l.foldl (fun acc p => acc + p.amount) init2) := by
  induction l with
  | nil => intro i1 i2; simp
  | cons p ps ih =>
    intro i1 i2
    rw [List.foldl_cons, ih (i1 ++ [p.id]) (i2 + p.amount), List.foldl_cons]
    simp

/-- Claim C3 (code bug): `PayBatchBills` initializes its id slice with
`make([]int, 10)`, i.e. ten zero ids, so the list delegated to the
idempotency-gate-plus-status-update pipeline is always
`[0,0,0,0,0,0,0,0,0,0]` followed by the pending payments' ids — not
"exactly the ids of those pending payments" — and the
"no valid unpaid bills found" guard right after is dead code; the reported
total is the sum of the pending payments' amounts. -/
theorem pay_batch_bills_delegation (payments : List Payment) (redis : Store)
    (now uid : Nat) (k : String) :
    servicePayBatchBills payments redis now uid k
      = (.ok ((getPendingPaymentsByUser payments uid).foldl
            (fun acc p => acc + p.amount) 0),
         updatePaymentsStatus payments
           ((List.replicate 10 (0 : Nat)
              ++ (getPendingPaymentsByUser payments uid).map (fun p => p.id)).map
             (fun paymentID =>
               { id := paymentID, billID := 0, userID := uid, amount := 0,
                 paidAt := now, createdAt := 0, updatedAt := now,
                 paymentStatus := PaymentStatus.paid })),
         paymentPayBills redis now
           (List.replicate 10 (0 : Nat)
             ++ (getPendingPaymentsByUser payments uid).map (fun p => p.id)) k) := by
  unfold servicePayBatchBills
  dsimp only
  rw [foldl_ids_amount]
  dsimp only
  rw [if_neg (by simp)]

/-!
## Bill division claims
-/

/-- The per-bill resident loop only appends payment rows; bills and
memberships are untouched. -/
theorem divideBill_inv (now : Nat) (bill : Bill) (amt : Rat) :
    ∀ (residents : List Nat) (db : BillsDB),
      (divideBillForResidents db now bill residents amt).memberships
        = db.memberships
      ∧ (divideBillForResidents db now bill residents amt).bills = db.bills
      ∧ ∃ l, (divideBillForResidents db now bill residents amt).payments
          = db.payments ++ l := by
  intro residents
  induction residents with
  | nil =>
    intro db
    exact ⟨rfl, rfl, [], by simp [divideBillForResidents]⟩
  | cons r rs ih =>
    intro db
    unfold divideBillForResidents
    rw [List.foldl_cons]
    cases hfind : getPaymentByBillAndUser db.payments bill.id r with
    | some p =>
      simp only [hfind]
      have h := ih db
      unfold divideBillForResidents at h
      exact h
    | none =>
      simp only [hfind]
      have h := ih { db with
        payments := db.payments ++
          [{ id := db.nextPaymentId, billID := bill.id, userID := r,
             amount := amt, paidAt := 0, createdAt := now, updatedAt := now,
             paymentStatus := PaymentStatus.pending }],
        nextPaymentId := db.nextPaymentId + 1 }
      unfold divideBillForResidents at h
      obtain ⟨h1, h2, l, hl⟩ := h
      exact ⟨h1, h2, _, by rw [hl, List.append_assoc]⟩

/-- With at least one resident, the per-bill loop guarantees a payment row
for the bill (either pre-existing or freshly created). -/
theorem divideBill_creates_row (now : Nat) (bill : Bill) (amt : Rat)
    (r : Nat) (rs : List Nat) (db : BillsDB) :
    ∃ p ∈ (divideBillForResidents db now bill (r :: rs) amt).payments,
      p.billID = bill.id := by
  unfold divideBillForResidents
  rw [List.foldl_cons]
  cases hfind : getPaymentByBillAndUser db.payments bill.id r with
  | some p =>
    simp only [hfind]
    unfold getPaymentByBillAndUser at hfind
    have hpmem := List.mem_of_find?_eq_some hfind
    have hpb : p.billID = bill.id := by
      have hpred := List.find?_some hfind
      simp only [Bool.and_eq_true, beq_iff_eq] at hpred
      exact hpred.1
    have h := divideBill_inv now bill amt rs db
    unfold divideBillForResidents at h
    obtain ⟨_, _, l, hl⟩ := h
    refine ⟨p, ?_, hpb⟩
    rw [hl]
    exact List.mem_append_left _ hpmem
  | none =>
    simp only [hfind]
    have h := divideBill_inv now bill amt rs { db with
      payments := db.payments ++
        [{ id := db.nextPaymentId, billID := bill.id, userID := r,
           amount := amt, paidAt := 0, createdAt := now, updatedAt := now,
           paymentStatus := PaymentStatus.pending }],
      nextPaymentId := db.nextPaymentId + 1 }
    unfold divideBillForResidents at h
    obtain ⟨_, _, l, hl⟩ := h
    refine ⟨⟨db.nextPaymentId, bill.id, r, amt, 0, now, now,
      PaymentStatus.pending⟩, ?_, rfl⟩
    rw [hl]
    simp

/-- The whole division fold: bills and memberships unchanged, payments
only appended, and every processed bill ends with at least one payment
row. -/
theorem divide_fold_inv (now : Nat) (residents : List Nat) (amt : Bill → Rat)
    (hres : residents ≠ []) :
    ∀ (bs : List Bill) (db : BillsDB),
      ((bs.foldl (fun d bill =>
          divideBillForResidents d now bill residents (amt bill)) db).memberships
        = db.memberships)
      ∧ ((bs.foldl (fun d bill =>
          divideBillForResidents d now bill residents (amt bill)) db).bills
        = db.bills)
      ∧ (∃ l, (bs.foldl (fun d bill =>
          divideBillForResidents d now bill residents (amt bill)) db).payments
        = db.payments ++ l)
      ∧ (∀ b ∈ bs, ∃ p ∈ (bs.foldl (fun d bill =>
          divideBillForResidents d now bill residents (amt bill)) db).payments,
          p.billID = b.id) := by
  intro bs
  induction bs with
  | nil =>
    intro db
    refine ⟨rfl, rfl, ⟨[], by simp⟩, ?_⟩
    intro b hb
    exact absurd hb (List.not_mem_nil b)
  | cons b bs ih =>
    intro db
    rw [List.foldl_cons]
    obtain ⟨m1, b1, ⟨l1, p1⟩⟩ := divideBill_inv now b (amt b) residents db
    obtain ⟨mIH, bIH, ⟨l2, pIH⟩, rowsIH⟩ :=
      ih (divideBillForResidents db now b residents (amt b))
    refine ⟨mIH.trans m1, bIH.trans b1, ⟨l1 ++ l2, ?_⟩, ?_⟩
    · rw [pIH, p1, List.append_assoc]
    · intro bb hbb
      rcases List.mem_cons.mp hbb with rfl | hbb'
      · obtain ⟨r, rs, hrr⟩ := List.exists_cons_of_ne_nil hres
        have hc := divideBill_creates_row now bb (amt bb) r rs db
        rw [← hrr] at hc
        obtain ⟨p, hp, hpb⟩ := hc
        refine ⟨p, ?_, hpb⟩
        rw [pIH]
        exact List.mem_append_left _ hp
      · exact rowsIH bb hbb'

/-- Unfolding equation for a `DivideAllBills` call that reaches the
division fold. -/
theorem divideAllBills_success (db : BillsDB) (now uid aid : Nat)
    (hmgr : isUserManagerOfApartment db.memberships uid aid = true)
    (hres : ¬(getResidentsInApartment db aid).length = 0)
    (hbills : ¬(getUndividedBillsByApartment db aid).length = 0) :
    DivideAllBills db now uid aid
      = (.ok { residentsCount := (getResidentsInApartment db aid).length,
               processedBills := (getUndividedBillsByApartment db aid).map
                 (fun b => b.id),
               processedCount := (getUndividedBillsByApartment db aid).length },
         (getUndividedBillsByApartment db aid).foldl
           (fun d bill => divideBillForResidents d now bill
             (getResidentsInApartment db aid)
             (bill.totalAmount / ((getResidentsInApartment db aid).length : Rat)))
           db) := by
  unfold DivideAllBills
  rw [hmgr]
  dsimp only
  rw [if_neg hres, if_neg hbills, if_neg (by decide)]

/-- Unfolding equation for the undivided-bill query. -/
theorem getUndividedBills_eq (db : BillsDB) (aid : Nat) :
    getUndividedBillsByApartment db aid
      = db.bills.filter (fun b => b.apartmentID == aid
          && !(db.payments.any fun p => p.billID == b.id)) := rfl

/-- Unfolding equation for the resident query. -/
theorem getResidents_eq (db : BillsDB) (aid : Nat) :
    getResidentsInApartment db aid
      = (db.memberships.filter fun m => m.apartmentID == aid).map
          (fun m => m.userID) := rfl

/-- Claim C4 (amended): when a `DivideAllBills` call succeeds with a
response, it is the only call that creates payment rows — an immediately
repeated call on the same apartment (same residents, no other changes)
finds no undivided bill, creates nothing, and fails with the
"no undivided bills found in apartment" error instead of returning a
response reporting zero newly processed bills. -/
theorem divide_all_bills_second_call (db : BillsDB) (t₁ t₂ uid aid : Nat)
    (resp : DivideResponse)
    (hok : (DivideAllBills db t₁ uid aid).1 = .ok resp) :
    DivideAllBills (DivideAllBills db t₁ uid aid).2 t₂ uid aid
      = (.error "no undivided bills found in apartment",
         (DivideAllBills db t₁ uid aid).2) := by
  cases hmgr : isUserManagerOfApartment db.memberships uid aid with
  | false =>
    exfalso
    unfold DivideAllBills at hok
    rw [hmgr] at hok
    simp at hok
  | true =>
    by_cases hres : (getResidentsInApartment db aid).length = 0
    · exfalso
      unfold DivideAllBills at hok
      rw [hmgr] at hok
      dsimp only at hok
      rw [if_neg (by decide), if_pos hres] at hok
      simp at hok
    · by_cases hbills : (getUndividedBillsByApartment db aid).length = 0
      · exfalso
        unfold DivideAllBills at hok
        rw [hmgr] at hok
        dsimp only at hok
        rw [if_neg (by decide), if_neg hres, if_pos hbills] at hok
        simp at hok
      · rw [divideAllBills_success db t₁ uid aid hmgr hres hbills]
        dsimp only
        have hresne : getResidentsInApartment db aid ≠ [] := by
          intro h
          exact hres (by rw [h]; rfl)
        have hinv := divide_fold_inv t₁ (getResidentsInApartment db aid)
          (fun bill => bill.totalAmount
            / ((getResidentsInApartment db aid).length : Rat))
          hresne (getUndividedBillsByApartment db aid) db
        obtain ⟨hmem', hbills', ⟨l, hpay⟩, hrows⟩ := hinv
        have hund : getUndividedBillsByApartment
            ((getUndividedBillsByApartment db aid).foldl
              (fun d bill => divideBillForResidents d t₁ bill
                (getResidentsInApartment db aid)
                (bill.totalAmount
                  / ((getResidentsInApartment db aid).length : Rat))) db)
            aid = [] := by
          rw [getUndividedBills_eq]
          rw [hbills', List.filter_eq_nil_iff]
          intro b hb hcond
          rw [Bool.and_eq_true] at hcond
          obtain ⟨hap, hnone⟩ := hcond
          rw [Bool.not_eq_true'] at hnone
          by_cases hhad : db.payments.any (fun p => p.billID == b.id) = true
          · have hany : (((getUndividedBillsByApartment db aid).foldl
                (fun d bill => divideBillForResidents d t₁ bill
                  (getResidentsInApartment db aid)
                  (bill.totalAmount
                    / ((getResidentsInApartment db aid).length : Rat)))
                db).payments.any fun p => p.billID == b.id) = true := by
              rw [hpay, List.any_append, hhad]
              rfl
            rw [hany] at hnone
            cases hnone
          · have hhadf : (db.payments.any fun p => p.billID == b.id) = false :=
              Bool.eq_false_iff.mpr hhad
            have hbmem : b ∈ getUndividedBillsByApartment db aid := by
              unfold getUndividedBillsByApartment
              rw [List.mem_filter]
              refine ⟨hb, ?_⟩
              rw [Bool.and_eq_true]
              exact ⟨hap, by rw [hhadf]; rfl⟩
            obtain ⟨p, hp, hpb⟩ := hrows b hbmem
            have hany : (((getUndividedBillsByApartment db aid).foldl
                (fun d bill => divideBillForResidents d t₁ bill
                  (getResidentsInApartment db aid)
                  (bill.totalAmount
                    / ((getResidentsInApartment db aid).length : Rat)))
                db).payments.any fun p => p.billID == b.id) = true :=
              List.any_eq_true.mpr ⟨p, hp, by simp [hpb]⟩
            rw [hany] at hnone
            cases hnone
        have hres2 : getResidentsInApartment
            ((getUndividedBillsByApartment db aid).foldl
              (fun d bill => divideBillForResidents d t₁ bill
                (getResidentsInApartment db aid)
                (bill.totalAmount
                  / ((getResidentsInApartment db aid).length : Rat))) db)
            aid = getResidentsInApartment db aid := by
          rw [getResidents_eq, hmem', getResidents_eq]
        unfold DivideAllBills
        rw [hmem', hmgr]
        dsimp only
        rw [if_neg (by decide), hres2, if_neg hres, hund]
        simp

/-- Witness for C4 (amended): apartment 1 with manager-resident 1 and one
undivided bill 5; the first call processes bill 5, the second call errors
and leaves the database exactly as the first call left it. -/
theorem divide_all_bills_second_call_witness :
    (DivideAllBills
        { bills := [{ id := 5, apartmentID := 1, billType := "water",
                      totalAmount := 100 }],
          payments := [],
          memberships := [{ userID := 1, apartmentID := 1, isManager := true }],
          nextPaymentId := 1 } 0 1 1).1
      = .ok { residentsCount := 1, processedBills := [5], processedCount := 1 }
    ∧ DivideAllBills
        (DivideAllBills
          { bills := [{ id := 5, apartmentID := 1, billType := "water",
                        totalAmount := 100 }],
            payments := [],
            memberships := [{ userID := 1, apartmentID := 1, isManager := true }],
            nextPaymentId := 1 } 0 1 1).2 1 1 1
      = (.error "no undivided bills found in apartment",
         (DivideAllBills
           { bills := [{ id := 5, apartmentID := 1, billType := "water",
                         totalAmount := 100 }],
             payments := [],
             memberships := [{ userID := 1, apartmentID := 1, isManager := true }],
             nextPaymentId := 1 } 0 1 1).2) :=
  ⟨rfl, divide_all_bills_second_call _ 0 1 1 1
    { residentsCount := 1, processedBills := [5], processedCount := 1 } rfl⟩

/-- Counterexample to C4 as stated: on the same concrete apartment the
first `DivideAllBills` call succeeds with a response, but the second call
does not return a response reporting zero newly processed bills — it
fails with the "no undivided bills found in apartment" error. -/
theorem divide_all_bills_second_call_cex :
    (DivideAllBills
        { bills := [{ id := 5, apartmentID := 1, billType := "water",
                      totalAmount := 100 }],
          payments := [],
          memberships := [{ userID := 1, apartmentID := 1, isManager := true }],
          nextPaymentId := 1 } 2 1 1).1
      = .ok { residentsCount := 1, processedBills := [5], processedCount := 1 }
    ∧ (DivideAllBills
        (DivideAllBills
          { bills := [{ id := 5, apartmentID := 1, billType := "water",
                        totalAmount := 100 }],
            payments := [],
            memberships := [{ userID := 1, apartmentID := 1, isManager := true }],
            nextPaymentId := 1 } 2 1 1).2 3 1 1).1
      = .error "no undivided bills found in apartment" :=
  ⟨rfl, rfl⟩
